import Mathlib

/-!
Verification of the distributed training-loop orchestrator in
`src/bin/main.py` (sublee/resnet-tutorial).

Numeric code is embedded over `ℚ` (Python floats are treated as exact
rationals), counts over `ℕ`.  Fallible Python operations (`/` on a zero
denominator) are embedded in `Except`.  The model, the cross-entropy loss
and the data-order permutation of the distributed sampler are external
collaborators of the orchestrator and are taken as parameters.
-/

namespace ResnetTutorial

/-! ### Metric records and the rank gate (main.py lines 79-87) -/

/-- One scalar record sent to the metrics sink: `scalar(name, value)` at a
step index. -/
structure ScalarReport where
  name : String
  value : ℚ
  step : Nat
  deriving DecidableEq, Repr

/-- The reporter selected at startup: on rank 0 the TensorBoard writer,
elsewhere the no-op object. -/
inductive Reporter where
  | tbWriter : Reporter
  | noop : Reporter
  deriving DecidableEq

/-- `main.py` lines 79-87: rank 0 constructs a `TensorBoardWriter`, every
other rank a `Noop`. -/
def mkReporter (rank : Nat) : Reporter :=
  if rank = 0 then Reporter.tbWriter else Reporter.noop

/-- Modelled from the spec: `skeleton.utils.TensorBoardWriter` and
`skeleton.utils.Noop` live outside `src/`.  Per §4.4 the writer forwards
`record(name, value, step)` to the sink, while the no-op object discards
every call without raising; the `Except` layer records that neither path
raises. -/
def report (r : Reporter) (name : String) (value : ℚ) (step : Nat) :
    Except String (List ScalarReport) :=
  match r with
  | Reporter.tbWriter => Except.ok [⟨name, value, step⟩]
  | Reporter.noop => Except.ok []

/-! ### The LR schedule (main.py lines 90-103) -/

/-- One step of CPython's `bisect.bisect_right` binary-search loop
(`lo, hi` bounds; fuel bounds the iteration count, `hi - lo` shrinks by at
least one per step so `a.length + 1` fuel is always enough). -/
def bisectGoFuel : Nat → List Nat → Nat → Nat → Nat → Nat
  | 0, _, _, lo, _ => lo
  | fuel + 1, a, x, lo, hi =>
    if lo < hi then
      if x < a.getD ((lo + hi) / 2) 0 then
        bisectGoFuel fuel a x lo ((lo + hi) / 2)
      else
        bisectGoFuel fuel a x ((lo + hi) / 2 + 1) hi
    else lo

/-- `bisect.bisect_right(a, x)`: rightmost insertion point for `x` in the
sorted list `a`. -/
def bisect_right (a : List Nat) (x : Nat) : Nat :=
  bisectGoFuel (a.length + 1) a x 0 a.length

/-- `main.py` line 101: the multi-step decay milestones. -/
def milestones : List Nat := [30, 60, 80]

/-- `main.py` lines 94-103, `lr_schedule`: gradual warm-up below epoch 5,
multi-step `0.1` decay at the milestones afterwards. -/
def lr_schedule (world_size epoch : Nat) : ℚ :=
  if epoch < 5 then
    -- gradual warmup
    let inv_world_size : ℚ := 1 / (world_size : ℚ)
    inv_world_size + ((1 - inv_world_size) / 5 * (epoch : ℚ))
  else
    -- multi-step LR schedule (1/10 at 30th, 60th, and 80th)
    let gamma : ℚ := 0.1
    gamma ^ bisect_right milestones epoch

/-- `main.py` line 90: `initial_lr = 0.0004 * args.batch * world_size`. -/
def initial_lr (batch world_size : Nat) : ℚ :=
  0.0004 * (batch : ℚ) * (world_size : ℚ)

/-! ### Data loaders (main.py lines 70-71) -/

/-- Successive mini-batches of size `bs` cut from `xs` (the fuel is spent
one unit per produced batch; `xs.length` units suffice whenever
`0 < bs`). -/
def chunksFuel {α : Type} : Nat → Nat → List α → List (List α)
  | 0, _, _ => []
  | _, _, [] => []
  | fuel + 1, bs, x :: xs =>
    (x :: xs).take bs :: chunksFuel fuel bs (xs.drop (bs - 1))

/-- The batch sequence a `DataLoader` with batch size `bs` draws from the
sample list `xs` before the `drop_last` policy is applied. -/
def chunks {α : Type} (bs : Nat) (xs : List α) : List (List α) :=
  chunksFuel xs.length bs xs

/-- `DataLoader(..., batch_size=bs, drop_last=d)` over the sample sequence
`xs`: with `drop_last=True` the trailing incomplete batch is discarded. -/
def loaderBatches {α : Type} (xs : List α) (bs : Nat) (dropLast : Bool) :
    List (List α) :=
  if dropLast then (chunks bs xs).filter (fun b => b.length == bs)
  else chunks bs xs

/-- `main.py` line 70: the training loader, fed by the distributed
sampler's per-rank shard, with `drop_last=True`. -/
def train_loader {α : Type} (shard : List α) (bs : Nat) : List (List α) :=
  loaderBatches shard bs true

/-- `main.py` line 71: the validation loader: no sampler (every worker
receives the whole validation set, whatever its rank) and
`drop_last=False`. -/
def valid_loader {α : Type} (valid_set : List α) (bs : Nat) :
    List (List α) :=
  loaderBatches valid_set bs false

/-! ### `correct_total` (main.py lines 30-34) -/

/-- Index scan of `torch.max(outputs, 1)`: first index of the maximal
score. -/
def argmaxAux : ℚ → Nat → Nat → List ℚ → Nat
  | _, bestIdx, _, [] => bestIdx
  | best, bestIdx, i, x :: xs =>
    if best < x then argmaxAux x i (i + 1) xs
    else argmaxAux best bestIdx (i + 1) xs

/-- The predicted class of one score row. -/
def argmaxIdx : List ℚ → Nat
  | [] => 0
  | x :: xs => argmaxAux x 0 1 xs

/-- `main.py` lines 30-34, `correct_total`: number of rows whose argmax
equals the target, paired with `targets.size(0)`. -/
def correct_total (outputs : List (List ℚ)) (targets : List Nat) :
    Nat × Nat :=
  let predicted := outputs.map argmaxIdx
  let correct :=
    (List.zipWith (fun p t => decide (p = t)) predicted targets).count true
  (correct, targets.length)

/-! ### Validation phase of one worker (main.py lines 149-174) -/

/-- Python's true division `correct / total`: raises `ZeroDivisionError`
on a zero denominator, otherwise yields the quotient. -/
def pyDiv (a b : ℚ) : Except String ℚ :=
  if b = 0 then Except.error "ZeroDivisionError: division by zero"
  else Except.ok (a / b)

/-- `numpy.average` of a list of scalars: sum divided by length. -/
def npAverage (l : List ℚ) : ℚ :=
  l.sum / (l.length : ℚ)

/-- `main.py` lines 151-168: the validation loop of one worker.  The
model (`forward`) and the cross-entropy loss are external collaborators,
passed as functions; the loop appends each batch's loss and accumulates
the `correct_total` pair over the batch list.  Result:
`(losses, correct, total)`. -/
def workerValid {α : Type} (model : α → List ℚ)
    (lossFn : List (List ℚ) → List Nat → ℚ)
    (batches : List (List (α × Nat))) : List ℚ × Nat × Nat :=
  batches.foldl
    (fun acc batch =>
      let outputs := batch.map (fun p => model p.1)
      let targets := batch.map Prod.snd
      let loss := lossFn outputs targets
      let ct := correct_total outputs targets
      (acc.1 ++ [loss], acc.2.1 + ct.1, acc.2.2 + ct.2))
    ([], 0, 0)

/-- `main.py` lines 149-174 for the worker of a given rank: run the
validation loop over `valid_loader valid_set bs`, compute
`accuracy = correct / total` (Python division: fails when `total = 0`),
report it at step `epoch + 1` through the rank-gated reporter, then
report the local loss average at the same step.  The result is the list
of records the worker's reporter forwarded to its sink. -/
def workerValidReports {α : Type} (rank : Nat) (model : α → List ℚ)
    (lossFn : List (List ℚ) → List Nat → ℚ)
    (valid_set : List (α × Nat)) (bs epoch : Nat) :
    Except String (List ScalarReport) := do
  let r := workerValid model lossFn (valid_loader valid_set bs)
  let accuracy ← pyDiv (r.2.1 : ℚ) (r.2.2 : ℚ)
  let recs1 ← report (mkReporter rank) "accuracy/valid" accuracy (epoch + 1)
  let loss := npAverage r.1
  let recs2 ← report (mkReporter rank) "loss/valid" loss (epoch + 1)
  return recs1 ++ recs2

/-- The whole process group at validation time: worker `w` runs
`workerValidReports` with rank `w` and its own model replica
`models.getD w`.  Every worker receives the same `valid_set` (the loader
is unsharded).  The collected sink content of the group is the
concatenation of what each worker's reporter let through — only rank 0's
records, since the others hold the no-op reporter. -/
def worldValidRecords {α : Type} (models : List (α → List ℚ))
    (lossFn : List (List ℚ) → List Nat → ℚ)
    (valid_set : List (α × Nat)) (bs epoch : Nat) :
    Except String (List ScalarReport) :=
  (List.range models.length).foldr
    (fun w acc => do
      let recs ← workerValidReports w (models.getD w (fun _ => []))
        lossFn valid_set bs epoch
      let rest ← acc
      return recs ++ rest)
    (Except.ok [])

/-- The per-worker `(correct, total)` pairs of the group's validation
run. -/
def worldValidCounts {α : Type} (models : List (α → List ℚ))
    (lossFn : List (List ℚ) → List Nat → ℚ)
    (valid_set : List (α × Nat)) (bs : Nat) : List (Nat × Nat) :=
  models.map (fun m => (workerValid m lossFn (valid_loader valid_set bs)).2)

/-- The value of the first `accuracy/valid` record in a sink. -/
def accuracyValueOf (recs : List ScalarReport) : Option ℚ :=
  (recs.find? (fun r => r.name == "accuracy/valid")).map ScalarReport.value

/-- The value of the first `loss/valid` record in a sink. -/
def lossValueOf (recs : List ScalarReport) : Option ℚ :=
  (recs.find? (fun r => r.name == "loss/valid")).map ScalarReport.value

/-- Follows the spec's words (§4.3a), for comparison with the code:
combine the per-worker `(correct, total)` pairs by summing both counts
across all workers, then divide. -/
def specWorldAccuracy (counts : List (Nat × Nat)) : Except String ℚ :=
  pyDiv ((counts.map Prod.fst).sum : ℚ) ((counts.map Prod.snd).sum : ℚ)

/-! ### The per-epoch control flow (main.py lines 107-145) -/

/-- Observable actions of one epoch of the orchestrator, in program
order. -/
inductive Event where
  | setEpoch : Nat → Event
  | applyLR : ℚ → Event
  | record : String → Nat → Event
  | trainStep : Nat → Event
  | validPhase : Event
  deriving DecidableEq

/-- `Event.applyLR` recogniser. -/
def Event.isApplyLR : Event → Bool
  | Event.applyLR _ => true
  | _ => false

/-- `Event.trainStep` recogniser. -/
def Event.isTrainStep : Event → Bool
  | Event.trainStep _ => true
  | _ => false

/-- `main.py` lines 107-145, one iteration of the epoch loop as an event
trace: `train_sampler.set_epoch(epoch)` (line 108), `scheduler.step()`
applying `initial_lr * lr_schedule(epoch)` to the optimizer (line 111),
the `lr` record at step `epoch` (line 114), then the `nTrain` training
steps (lines 122-143, each step's own records folded into its event),
the `time-per/epoch` record at step `epoch + 1` (line 145) and the
validation phase (lines 149-174). -/
def epochEvents (batch world_size epoch nTrain : Nat) : List Event :=
  Event.setEpoch epoch ::
  Event.applyLR (initial_lr batch world_size * lr_schedule world_size epoch) ::
  Event.record "lr" epoch ::
  ((List.range nTrain).map Event.trainStep ++
    [Event.record "time-per/epoch" (epoch + 1), Event.validPhase])

/-! ### Concrete collaborators used as test vectors -/

/-- Ten validation samples with inputs `0..9`, every target class `0`. -/
def sampleSet : List (Nat × Nat) := (List.range 10).map (fun i => (i, 0))

/-- A model replica that classifies inputs `0..7` as class `0` and the
rest as class `1`: 8 of the 10 samples of `sampleSet` correct. -/
def modelA : Nat → List ℚ := fun i => if i < 8 then [1, 0] else [0, 1]

/-- A model replica that classifies inputs `0..8` as class `0`: 9 of the
10 samples of `sampleSet` correct. -/
def modelB : Nat → List ℚ := fun i => if i < 9 then [1, 0] else [0, 1]

/-- A constant-zero stand-in for the external cross-entropy collaborator. -/
def lossZero : List (List ℚ) → List Nat → ℚ := fun _ _ => 0

/-! ### Shared lemmas -/

/-- On a non-zero rank the selected reporter is the no-op object and a
report forwards nothing and raises nothing. -/
lemma report_of_ne_zero (rank : Nat) (h : rank ≠ 0) (name : String)
    (value : ℚ) (step : Nat) :
    report (mkReporter rank) name value step = Except.ok [] := by
  simp [mkReporter, h, report]

/-- `bisect_right` on the milestone list computes the number of
milestones `≤ e` (inclusive boundary). -/
lemma bisect_right_milestones (e : Nat) :
    bisect_right milestones e
      = milestones.countP (fun m => decide (m ≤ e)) := by
  rcases Nat.lt_or_ge e 30 with h30 | h30
  · have h60 : e < 60 := by omega
    have n30 : ¬ 30 ≤ e := by omega
    have n60 : ¬ 60 ≤ e := by omega
    have n80 : ¬ 80 ≤ e := by omega
    simp [bisect_right, milestones, bisectGoFuel, List.countP, List.countP.go,
      h30, h60, n30, n60, n80]
  · rcases Nat.lt_or_ge e 60 with h60 | h60
    · have n30 : ¬ e < 30 := by omega
      have n60 : ¬ 60 ≤ e := by omega
      have n80 : ¬ 80 ≤ e := by omega
      simp [bisect_right, milestones, bisectGoFuel, List.countP, List.countP.go,
        h30, h60, n30, n60, n80]
    · rcases Nat.lt_or_ge e 80 with h80 | h80
      · have n60 : ¬ e < 60 := by omega
        have n80 : ¬ 80 ≤ e := by omega
        have y30 : 30 ≤ e := by omega
        simp [bisect_right, milestones, bisectGoFuel, List.countP, List.countP.go,
          h80, h60, y30, n60, n80]
      · have n60 : ¬ e < 60 := by omega
        have n80 : ¬ e < 80 := by omega
        have y30 : 30 ≤ e := by omega
        simp [bisect_right, milestones, bisectGoFuel, List.countP, List.countP.go,
          h80, h60, y30, n60, n80]

/-- The batches cut by `chunksFuel` concatenate back to the sample list
whenever the fuel covers its length and the batch size is positive. -/
lemma chunksFuel_join {α : Type} (bs : Nat) (hbs : 0 < bs) :
    ∀ (fuel : Nat) (xs : List α), xs.length ≤ fuel →
      (chunksFuel fuel bs xs).flatten = xs := by
  intro fuel
  induction fuel with
  | zero =>
    intro xs hx
    have : xs = [] := List.length_eq_zero.mp (Nat.le_zero.mp hx)
    simp [this, chunksFuel]
  | succ n ih =>
    intro xs hx
    cases xs with
    | nil => simp [chunksFuel]
    | cons x tl =>
      obtain ⟨k, rfl⟩ : ∃ k, bs = k + 1 := ⟨bs - 1, by omega⟩
      have hlen : (tl.drop k).length ≤ n := by
        simp only [List.length_drop]
        simp only [List.length_cons] at hx
        omega
      simp [chunksFuel, List.flatten_cons, ih (tl.drop k) hlen,
        List.take_succ_cons, List.take_append_drop]

/-- A `drop_last=False` loader covers the sample list exactly. -/
lemma chunks_join {α : Type} (bs : Nat) (hbs : 0 < bs) (xs : List α) :
    (chunks bs xs).flatten = xs :=
  chunksFuel_join bs hbs xs.length xs (Nat.le_refl _)

/-- The `correct` component never exceeds the `total` component. -/
lemma correct_total_le (outputs : List (List ℚ)) (targets : List Nat) :
    (correct_total outputs targets).1 ≤ (correct_total outputs targets).2 := by
  simp only [correct_total]
  calc (List.zipWith (fun p t => decide (p = t)) (outputs.map argmaxIdx)
          targets).count true
      ≤ (List.zipWith (fun p t => decide (p = t)) (outputs.map argmaxIdx)
          targets).length := List.count_le_length _ _
    _ ≤ targets.length := by
        rw [List.length_zipWith]
        exact Nat.min_le_right _ _

/-- The validation loop of one worker, in closed form: the loss list is
the per-batch loss map, and the two counters are the per-batch sums of
the `correct_total` components. -/
lemma workerValid_eq {α : Type} (model : α → List ℚ)
    (lossFn : List (List ℚ) → List Nat → ℚ)
    (batches : List (List (α × Nat))) :
    workerValid model lossFn batches =
      (batches.map (fun b => lossFn (b.map (fun p => model p.1)) (b.map Prod.snd)),
       (batches.map (fun b =>
          (correct_total (b.map (fun p => model p.1)) (b.map Prod.snd)).1)).sum,
       (batches.map (fun b =>
          (correct_total (b.map (fun p => model p.1)) (b.map Prod.snd)).2)).sum) := by
  have main : ∀ (bsl : List (List (α × Nat))) (acc : List ℚ × Nat × Nat),
      bsl.foldl
        (fun acc batch =>
          let outputs := batch.map (fun p => model p.1)
          let targets := batch.map Prod.snd
          let loss := lossFn outputs targets
          let ct := correct_total outputs targets
          (acc.1 ++ [loss], acc.2.1 + ct.1, acc.2.2 + ct.2)) acc =
      (acc.1 ++ bsl.map (fun b => lossFn (b.map (fun p => model p.1)) (b.map Prod.snd)),
       acc.2.1 + (bsl.map (fun b =>
          (correct_total (b.map (fun p => model p.1)) (b.map Prod.snd)).1)).sum,
       acc.2.2 + (bsl.map (fun b =>
          (correct_total (b.map (fun p => model p.1)) (b.map Prod.snd)).2)).sum) := by
    intro bsl
    induction bsl with
    | nil => intro acc; simp
    | cons b tl ih =>
      intro acc
      simp only [List.foldl_cons, ih, List.map_cons, List.sum_cons]
      simp [List.append_assoc]
      omega
  simpa using main batches ([], 0, 0)

/-- The accumulated `total` of a worker's validation run over the
unsharded loader is the size of the whole validation set. -/
lemma workerValid_total {α : Type} (model : α → List ℚ)
    (lossFn : List (List ℚ) → List Nat → ℚ)
    (valid_set : List (α × Nat)) (bs : Nat) (hbs : 0 < bs) :
    (workerValid model lossFn (valid_loader valid_set bs)).2.2
      = valid_set.length := by
  rw [workerValid_eq]
  have hct : ∀ b : List (α × Nat),
      (correct_total (b.map (fun p => model p.1)) (b.map Prod.snd)).2
        = b.length := by
    intro b; simp [correct_total]
  calc ((valid_loader valid_set bs).map (fun b =>
          (correct_total (b.map (fun p => model p.1)) (b.map Prod.snd)).2)).sum
      = ((valid_loader valid_set bs).map List.length).sum := by
        apply congrArg
        exact List.map_congr_left (fun b _ => hct b)
    _ = (valid_loader valid_set bs).flatten.length := (List.length_flatten _).symm
    _ = valid_set.length := by
        rw [valid_loader, loaderBatches]
        simp [chunks_join bs hbs]

/-- The accumulated `total` of the validation loop does not depend on the
model replica or the loss collaborator: it only counts targets. -/
lemma workerValid_total_indep {α : Type} (m1 m2 : α → List ℚ)
    (f1 f2 : List (List ℚ) → List Nat → ℚ)
    (batches : List (List (α × Nat))) :
    (workerValid m1 f1 batches).2.2 = (workerValid m2 f2 batches).2.2 := by
  rw [workerValid_eq, workerValid_eq]
  have hconst : ∀ m : α → List ℚ,
      (fun b : List (α × Nat) =>
        (correct_total (b.map (fun p => m p.1)) (b.map Prod.snd)).2)
      = fun b : List (α × Nat) => b.length := by
    intro m
    funext b
    simp [correct_total]
  simp only [hconst m1, hconst m2]

/-- A rational `c / t` with `0 ≤ c ≤ t` and `0 < t` lies in `[0, 1]`. -/
lemma ratio_bounds (c t : Nat) (hle : c ≤ t) (ht : 0 < t) :
    (0 : ℚ) ≤ (c : ℚ) / (t : ℚ) ∧ (c : ℚ) / (t : ℚ) ≤ 1 := by
  have ht2 : (0 : ℚ) < (t : ℚ) := by exact_mod_cast ht
  constructor
  · positivity
  · rw [div_le_one ht2]
    exact_mod_cast hle

/-- On a non-zero rank, a validation run whose `total` is non-zero
produces no records at all. -/
lemma workerValidReports_ok_of_rank_ne {α : Type} (rank : Nat)
    (model : α → List ℚ) (lossFn : List (List ℚ) → List Nat → ℚ)
    (valid_set : List (α × Nat)) (bs epoch : Nat) (hrank : rank ≠ 0)
    (htot : (workerValid model lossFn (valid_loader valid_set bs)).2.2 ≠ 0) :
    workerValidReports rank model lossFn valid_set bs epoch
      = Except.ok [] := by
  have hc : ((workerValid model lossFn (valid_loader valid_set bs)).2.2 : ℚ)
      ≠ 0 := by exact_mod_cast htot
  simp [workerValidReports, pyDiv, hc, report_of_ne_zero rank hrank,
    bind, Except.bind, pure, Except.pure]

/-- On rank 0 a validation run whose `total` is non-zero records the
local ratio `correct / total` and the local loss average, both at step
`epoch + 1`. -/
lemma workerValidReports_rank0 {α : Type} (model : α → List ℚ)
    (lossFn : List (List ℚ) → List Nat → ℚ)
    (valid_set : List (α × Nat)) (bs epoch : Nat)
    (htot : (workerValid model lossFn (valid_loader valid_set bs)).2.2 ≠ 0) :
    workerValidReports 0 model lossFn valid_set bs epoch
      = Except.ok
          [⟨"accuracy/valid",
            ((workerValid model lossFn (valid_loader valid_set bs)).2.1 : ℚ)
              / ((workerValid model lossFn (valid_loader valid_set bs)).2.2 : ℚ),
            epoch + 1⟩,
           ⟨"loss/valid",
            npAverage (workerValid model lossFn (valid_loader valid_set bs)).1,
            epoch + 1⟩] := by
  have hc : ((workerValid model lossFn (valid_loader valid_set bs)).2.2 : ℚ)
      ≠ 0 := by exact_mod_cast htot
  simp [workerValidReports, pyDiv, hc, report, mkReporter,
    bind, Except.bind, pure, Except.pure]

/-- In a group whose rank-0 worker accumulates a non-zero `total`, the
sink content of the whole group is exactly what rank 0's reporter let
through: every other rank contributes nothing. -/
lemma worldValidRecords_cons {α : Type} (m0 : α → List ℚ)
    (ms : List (α → List ℚ)) (lossFn : List (List ℚ) → List Nat → ℚ)
    (valid_set : List (α × Nat)) (bs epoch : Nat)
    (htot : (workerValid m0 lossFn (valid_loader valid_set bs)).2.2 ≠ 0) :
    worldValidRecords (m0 :: ms) lossFn valid_set bs epoch
      = workerValidReports 0 m0 lossFn valid_set bs epoch := by
  have htail : ∀ ws : List Nat, (∀ w ∈ ws, w ≠ 0) →
      ws.foldr
        (fun w acc => do
          let recs ← workerValidReports w ((m0 :: ms).getD w (fun _ => []))
            lossFn valid_set bs epoch
          let rest ← acc
          return recs ++ rest)
        (Except.ok []) = Except.ok [] := by
    intro ws hws
    induction ws with
    | nil => rfl
    | cons w tl ih =>
      have hw0 : w ≠ 0 := hws w (by simp)
      have htw : (workerValid ((m0 :: ms).getD w (fun _ => [])) lossFn
          (valid_loader valid_set bs)).2.2 ≠ 0 := by
        rw [workerValid_total_indep _ m0 _ lossFn]
        exact htot
      rw [List.foldr_cons, ih (fun w2 hw2 => hws w2 (by simp [hw2]))]
      rw [workerValidReports_ok_of_rank_ne w _ lossFn valid_set bs epoch
        hw0 htw]
      rfl
  have hr : List.range (m0 :: ms).length
      = 0 :: (List.range ms.length).map Nat.succ := by
    simp [List.range_succ_eq_map]
  rw [worldValidRecords, hr, List.foldr_cons, htail]
  · simp only [List.getD_cons_zero]
    cases hX : workerValidReports 0 m0 lossFn valid_set bs epoch with
    | error e => simp [hX, bind, Except.bind]
    | ok l => simp [hX, bind, Except.bind, pure, Except.pure]
  · intro w hw
    simp only [List.mem_map] at hw
    obtain ⟨j, _, rfl⟩ := hw
    exact Nat.succ_ne_zero j

/-! ### Claim theorems -/

/-- C1, counterexample: at `world_size = 1` the warm-up multiplier is `1`
at both epoch 0 and epoch 1, so the schedule is not strictly increasing
in epoch for every `world_size ≥ 1` as claimed. -/
theorem lr_warmup_constant_at_world1 :
    lr_schedule 1 0 = 1 ∧ lr_schedule 1 1 = 1 ∧
      ¬ lr_schedule 1 0 < lr_schedule 1 1 := by
  norm_num [lr_schedule]

/-- C1, amended: for every `world_size ≥ 1` and `epoch ∈ [0,5)` the
schedule returns `1/world_size + (1 - 1/world_size) * epoch / 5`; this is
strictly increasing in epoch when `world_size ≥ 2`, and constantly `1`
when `world_size = 1`. -/
theorem lr_warmup_formula (world_size epoch : Nat) (hw : 1 ≤ world_size)
    (he : epoch < 5) :
    lr_schedule world_size epoch
      = 1 / (world_size : ℚ) + (1 - 1 / (world_size : ℚ)) * (epoch : ℚ) / 5
    ∧ (2 ≤ world_size → ∀ e2 : Nat, epoch < e2 → e2 < 5 →
        lr_schedule world_size epoch < lr_schedule world_size e2)
    ∧ (world_size = 1 → lr_schedule world_size epoch = 1) := by
  refine ⟨?_, ?_, ?_⟩
  · simp only [lr_schedule, if_pos he]
    ring
  · intro h2 e2 he2 he5
    simp only [lr_schedule, if_pos he, if_pos he5]
    have hw2 : (2 : ℚ) ≤ (world_size : ℚ) := by exact_mod_cast h2
    have hinv : 1 / (world_size : ℚ) < 1 := by
      rw [div_lt_one (by linarith)]
      linarith
    have hstep : (epoch : ℚ) < (e2 : ℚ) := by exact_mod_cast he2
    have hmul := mul_lt_mul_of_pos_left hstep
      (by linarith : (0 : ℚ) < (1 - 1 / (world_size : ℚ)) / 5)
    linarith
  · intro h1
    subst h1
    simp only [lr_schedule, if_pos he]
    norm_num

/-- C1, witness for the amended claim at `world_size = 2`, `epoch = 3`. -/
theorem lr_warmup_formula_witness :
    1 ≤ 2 ∧ 3 < 5 ∧
      (lr_schedule 2 3 = 1 / ((2 : Nat) : ℚ)
          + (1 - 1 / ((2 : Nat) : ℚ)) * ((3 : Nat) : ℚ) / 5
        ∧ (2 ≤ 2 → ∀ e2 : Nat, 3 < e2 → e2 < 5 →
            lr_schedule 2 3 < lr_schedule 2 e2)
        ∧ (2 = 1 → lr_schedule 2 3 = 1)) :=
  ⟨by norm_num, by norm_num, lr_warmup_formula 2 3 (by norm_num) (by norm_num)⟩

/-- C2: past the warm-up the schedule returns `0.1 ^ k` where `k` is the
number of milestones in `{30, 60, 80}` that are `≤ epoch` (inclusive
boundary), and in particular `0.1` at 30 and 59, `0.01` at 60, `0.001`
at 100. -/
theorem lr_milestone_decay (world_size epoch : Nat) (he : 5 ≤ epoch) :
    lr_schedule world_size epoch
      = (0.1 : ℚ) ^ (milestones.countP (fun m => decide (m ≤ epoch)))
    ∧ lr_schedule world_size 30 = 0.1
    ∧ lr_schedule world_size 59 = 0.1
    ∧ lr_schedule world_size 60 = 0.01
    ∧ lr_schedule world_size 100 = 0.001 := by
  have hne : ¬ epoch < 5 := by omega
  refine ⟨?_, ?_, ?_, ?_, ?_⟩
  · simp only [lr_schedule, if_neg hne, bisect_right_milestones]
  all_goals norm_num [lr_schedule, bisect_right, milestones, bisectGoFuel]

/-- C2, witness at `world_size = 4`, `epoch = 35`. -/
theorem lr_milestone_decay_witness :
    5 ≤ 35 ∧
      (lr_schedule 4 35
          = (0.1 : ℚ) ^ (milestones.countP (fun m => decide (m ≤ 35)))
        ∧ lr_schedule 4 30 = 0.1
        ∧ lr_schedule 4 59 = 0.1
        ∧ lr_schedule 4 60 = 0.01
        ∧ lr_schedule 4 100 = 0.001) :=
  ⟨by norm_num, lr_milestone_decay 4 35 (by norm_num)⟩

/-- C4: on every rank other than 0 a report call forwards nothing to the
metrics sink and never raises — the result is `ok []`, a true no-op, for
any arguments. -/
theorem rank_gate_true_noop (rank : Nat) (h : rank ≠ 0) (name : String)
    (value : ℚ) (step : Nat) :
    report (mkReporter rank) name value step = Except.ok [] :=
  report_of_ne_zero rank h name value step

/-- C4, witness at rank 1 with arbitrary concrete arguments. -/
theorem rank_gate_true_noop_witness :
    (1 : Nat) ≠ 0 ∧
      report (mkReporter 1) "accuracy/valid" (1 / 2) 7 = Except.ok [] :=
  ⟨by decide, rank_gate_true_noop 1 (by decide) "accuracy/valid" (1 / 2) 7⟩

/-- C7: when the validation run accumulates `total = 0`, the unguarded
`correct / total` at `main.py` line 170 fails with a `ZeroDivisionError`
instead of producing a value, on every rank. -/
theorem valid_accuracy_zero_total_fatal {α : Type} (rank : Nat)
    (model : α → List ℚ) (lossFn : List (List ℚ) → List Nat → ℚ)
    (valid_set : List (α × Nat)) (bs epoch : Nat)
    (h : (workerValid model lossFn (valid_loader valid_set bs)).2.2 = 0) :
    workerValidReports rank model lossFn valid_set bs epoch
      = Except.error "ZeroDivisionError: division by zero" := by
  simp [workerValidReports, pyDiv, h, bind, Except.bind]

/-- C7, witness: the empty validation set accumulates `total = 0` and the
evaluation indeed fails. -/
theorem valid_accuracy_zero_total_fatal_witness :
    (workerValid modelA lossZero
        (valid_loader ([] : List (Nat × Nat)) 10)).2.2 = 0 ∧
      workerValidReports 0 modelA lossZero ([] : List (Nat × Nat)) 10 0
        = Except.error "ZeroDivisionError: division by zero" :=
  ⟨by decide, valid_accuracy_zero_total_fatal 0 modelA lossZero [] 10 0
    (by decide)⟩

/-- C3, counterexample: with per-worker `(correct, total)` counts
`[(8,10), (9,10)]` the sink receives rank 0's local ratio `8/10 = 0.8`,
not the summed `17/20 = 0.85` that combining the pairs across workers
would give: the code never sums counts across workers. -/
theorem valid_accuracy_not_count_summed :
    worldValidCounts [modelA, modelB] lossZero sampleSet 10 = [(8, 10), (9, 10)]
    ∧ worldValidRecords [modelA, modelB] lossZero sampleSet 10 0
        = Except.ok [⟨"accuracy/valid", 4 / 5, 1⟩, ⟨"loss/valid", 0, 1⟩]
    ∧ specWorldAccuracy [(8, 10), (9, 10)] = Except.ok (17 / 20)
    ∧ ((4 : ℚ) / 5) ≠ 17 / 20 := by
  refine ⟨by decide, ?_, ?_, by norm_num⟩
  · have hA : workerValid modelA lossZero (valid_loader sampleSet 10)
        = ([0], 8, 10) := by decide
    have hB : workerValid modelB lossZero (valid_loader sampleSet 10)
        = ([0], 9, 10) := by decide
    simp [worldValidRecords, workerValidReports, pyDiv, npAverage, report,
      mkReporter, List.range_succ, hA, hB, bind, Except.bind, pure,
      Except.pure]
    norm_num
  · norm_num [specWorldAccuracy, pyDiv]

/-- C3, amended: the validation accuracy recorded at step `epoch + 1` is
rank 0's local sum-of-counts ratio over its own batches; because every
worker evaluates the same unsharded validation set, whenever all
replicas produce the same `(correct, total)` pair (the program's
lockstep situation) this value equals the world-wide sum-of-counts
ratio of the spec. -/
theorem valid_accuracy_world_ratio_when_replicas_agree {α : Type}
    (m0 : α → List ℚ) (ms : List (α → List ℚ))
    (lossFn : List (List ℚ) → List Nat → ℚ)
    (valid_set : List (α × Nat)) (bs epoch : Nat)
    (hsame : ∀ m ∈ m0 :: ms,
      (workerValid m lossFn (valid_loader valid_set bs)).2
        = (workerValid m0 lossFn (valid_loader valid_set bs)).2)
    (htot : 0 < (workerValid m0 lossFn (valid_loader valid_set bs)).2.2) :
    ∃ recs,
      worldValidRecords (m0 :: ms) lossFn valid_set bs epoch = Except.ok recs
      ∧ accuracyValueOf recs
          = some (((workerValid m0 lossFn (valid_loader valid_set bs)).2.1 : ℚ)
              / ((workerValid m0 lossFn (valid_loader valid_set bs)).2.2 : ℚ))
      ∧ (∀ r ∈ recs, r.step = epoch + 1)
      ∧ specWorldAccuracy (worldValidCounts (m0 :: ms) lossFn valid_set bs)
          = Except.ok
            (((workerValid m0 lossFn (valid_loader valid_set bs)).2.1 : ℚ)
              / ((workerValid m0 lossFn (valid_loader valid_set bs)).2.2 : ℚ)) := by
  have hne : (workerValid m0 lossFn (valid_loader valid_set bs)).2.2 ≠ 0 := by
    omega
  refine ⟨_,
    by rw [worldValidRecords_cons m0 ms lossFn valid_set bs epoch hne,
      workerValidReports_rank0 m0 lossFn valid_set bs epoch hne],
    ?_, ?_, ?_⟩
  · simp [accuracyValueOf]
  · intro r hr
    simp only [List.mem_cons, List.not_mem_nil, or_false] at hr
    rcases hr with rfl | rfl <;> rfl
  · have hrep : worldValidCounts (m0 :: ms) lossFn valid_set bs
        = List.replicate (ms.length + 1)
            (workerValid m0 lossFn (valid_loader valid_set bs)).2 := by
      rw [worldValidCounts]
      refine List.eq_replicate_iff.mpr ⟨by simp, ?_⟩
      intro b hb
      simp only [List.mem_map] at hb
      obtain ⟨m, hm, rfl⟩ := hb
      exact hsame m hm
    have hn : ((ms.length : ℚ) + 1) ≠ 0 := by positivity
    have htQ : ((workerValid m0 lossFn (valid_loader valid_set bs)).2.2 : ℚ)
        ≠ 0 := by exact_mod_cast hne
    rw [hrep, specWorldAccuracy]
    simp only [List.map_replicate, List.sum_replicate, smul_eq_mul]
    have hmul : (((ms.length + 1)
        * (workerValid m0 lossFn (valid_loader valid_set bs)).2.2 : Nat) : ℚ)
        ≠ 0 := by
      push_cast
      exact mul_ne_zero hn htQ
    rw [pyDiv, if_neg hmul]
    congr 1
    push_cast
    rw [mul_div_mul_left _ _ hn]

/-- C3, witness for the amended claim: two identical replicas of
`modelA` on the ten-sample set; the hypotheses hold and rank 0's ratio
equals the world sum-of-counts ratio. -/
theorem valid_accuracy_world_ratio_witness :
    (∀ m ∈ modelA :: [modelA],
      (workerValid m lossZero (valid_loader sampleSet 10)).2
        = (workerValid modelA lossZero (valid_loader sampleSet 10)).2)
    ∧ 0 < (workerValid modelA lossZero (valid_loader sampleSet 10)).2.2
    ∧ ∃ recs,
      worldValidRecords (modelA :: [modelA]) lossZero sampleSet 10 0
        = Except.ok recs
      ∧ accuracyValueOf recs
          = some (((workerValid modelA lossZero
                (valid_loader sampleSet 10)).2.1 : ℚ)
              / ((workerValid modelA lossZero
                (valid_loader sampleSet 10)).2.2 : ℚ))
      ∧ (∀ r ∈ recs, r.step = 0 + 1)
      ∧ specWorldAccuracy
            (worldValidCounts (modelA :: [modelA]) lossZero sampleSet 10)
          = Except.ok
            (((workerValid modelA lossZero
                (valid_loader sampleSet 10)).2.1 : ℚ)
              / ((workerValid modelA lossZero
                (valid_loader sampleSet 10)).2.2 : ℚ)) :=
  ⟨by intro m hm; simp only [List.mem_cons, List.not_mem_nil, or_false,
      or_self] at hm; rw [hm],
   by decide,
   valid_accuracy_world_ratio_when_replicas_agree modelA [modelA] lossZero
     sampleSet 10 0
     (by intro m hm; simp only [List.mem_cons, List.not_mem_nil, or_false,
       or_self] at hm; rw [hm])
     (by decide)⟩

/-- C5, counterexample: the claimed asymmetry between the validation
loss and the validation accuracy does not exist in the code.  With
replicas `[modelA, modelB]` the whole sink — the accuracy record
included — is unchanged when worker 1 is dropped from the group, and the
recorded accuracy is rank 0's local ratio `4/5`, not the cross-worker
sum-of-counts `17/20`: the accuracy is computed locally, exactly like
the loss. -/
theorem valid_loss_accuracy_symmetric_local :
    worldValidRecords [modelA, modelB] lossZero sampleSet 10 0
      = worldValidRecords [modelA] lossZero sampleSet 10 0
    ∧ worldValidRecords [modelA, modelB] lossZero sampleSet 10 0
        = Except.ok [⟨"accuracy/valid", 4 / 5, 1⟩, ⟨"loss/valid", 0, 1⟩]
    ∧ specWorldAccuracy (worldValidCounts [modelA, modelB] lossZero sampleSet 10)
        = Except.ok (17 / 20)
    ∧ ((4 : ℚ) / 5) ≠ 17 / 20 := by
  have htot : (workerValid modelA lossZero
      (valid_loader sampleSet 10)).2.2 ≠ 0 := by decide
  refine ⟨?_, ?_, ?_, by norm_num⟩
  · rw [worldValidRecords_cons modelA [modelB] lossZero sampleSet 10 0 htot,
      worldValidRecords_cons modelA [] lossZero sampleSet 10 0 htot]
  · have hA : workerValid modelA lossZero (valid_loader sampleSet 10)
        = ([0], 8, 10) := by decide
    have hB : workerValid modelB lossZero (valid_loader sampleSet 10)
        = ([0], 9, 10) := by decide
    simp [worldValidRecords, workerValidReports, pyDiv, npAverage, report,
      mkReporter, List.range_succ, hA, hB, bind, Except.bind, pure,
      Except.pure]
    norm_num
  · have hc : worldValidCounts [modelA, modelB] lossZero sampleSet 10
        = [(8, 10), (9, 10)] := by decide
    rw [hc]
    norm_num [specWorldAccuracy, pyDiv]

/-- C5, amended: the recorded validation loss is the plain arithmetic
mean of the per-batch loss values collected by rank 0 alone, and is
never cross-worker reduced; the group's sink content — the accuracy
record included — is entirely independent of every other worker's
replica, so the accuracy receives the same local treatment and no
asymmetry exists. -/
theorem valid_loss_local_mean {α : Type} (m0 : α → List ℚ)
    (ms ms2 : List (α → List ℚ))
    (lossFn : List (List ℚ) → List Nat → ℚ)
    (valid_set : List (α × Nat)) (bs epoch : Nat)
    (htot : (workerValid m0 lossFn (valid_loader valid_set bs)).2.2 ≠ 0) :
    ∃ recs,
      worldValidRecords (m0 :: ms) lossFn valid_set bs epoch = Except.ok recs
      ∧ lossValueOf recs
          = some (npAverage ((valid_loader valid_set bs).map
              (fun b => lossFn (b.map (fun p => m0 p.1)) (b.map Prod.snd))))
      ∧ worldValidRecords (m0 :: ms2) lossFn valid_set bs epoch
          = worldValidRecords (m0 :: ms) lossFn valid_set bs epoch := by
  refine ⟨_,
    by rw [worldValidRecords_cons m0 ms lossFn valid_set bs epoch htot,
      workerValidReports_rank0 m0 lossFn valid_set bs epoch htot],
    ?_, ?_⟩
  · have hlosses : (workerValid m0 lossFn (valid_loader valid_set bs)).1
        = (valid_loader valid_set bs).map
            (fun b => lossFn (b.map (fun p => m0 p.1)) (b.map Prod.snd)) := by
      rw [workerValid_eq]
    simp [lossValueOf, hlosses]
  · rw [worldValidRecords_cons m0 ms2 lossFn valid_set bs epoch htot,
      worldValidRecords_cons m0 ms lossFn valid_set bs epoch htot]

/-- C5, witness: rank 0 holds `modelA`; replacing the second worker's
replica (`modelB`) by no worker at all leaves the sink unchanged, and the
recorded loss is the mean of rank 0's per-batch losses. -/
theorem valid_loss_local_mean_witness :
    (workerValid modelA lossZero (valid_loader sampleSet 10)).2.2 ≠ 0
    ∧ ∃ recs,
      worldValidRecords (modelA :: [modelB]) lossZero sampleSet 10 0
        = Except.ok recs
      ∧ lossValueOf recs
          = some (npAverage ((valid_loader sampleSet 10).map
              (fun b => lossZero (b.map (fun p => modelA p.1))
                (b.map Prod.snd))))
      ∧ worldValidRecords (modelA :: []) lossZero sampleSet 10 0
          = worldValidRecords (modelA :: [modelB]) lossZero sampleSet 10 0 :=
  ⟨by decide,
   valid_loss_local_mean modelA [modelB] [] lossZero sampleSet 10 0
     (by decide)⟩

/-- C6: the validation loader is unsharded — its batches carry no rank
dependence, concatenate back to the entire validation set, every
replica's run counts all of its samples, and the loop's local
accumulation is exactly the per-batch `(correct, total)` sums and
per-batch loss list. -/
theorem valid_phase_unsharded_full_set {α : Type} (model : α → List ℚ)
    (lossFn : List (List ℚ) → List Nat → ℚ)
    (valid_set : List (α × Nat)) (bs : Nat) (hbs : 0 < bs) :
    (valid_loader valid_set bs).flatten = valid_set
    ∧ (∀ (m2 : α → List ℚ) (f2 : List (List ℚ) → List Nat → ℚ),
        (workerValid m2 f2 (valid_loader valid_set bs)).2.2
          = valid_set.length)
    ∧ workerValid model lossFn (valid_loader valid_set bs)
        = ((valid_loader valid_set bs).map
            (fun b => lossFn (b.map (fun p => model p.1)) (b.map Prod.snd)),
           ((valid_loader valid_set bs).map (fun b =>
             (correct_total (b.map (fun p => model p.1))
               (b.map Prod.snd)).1)).sum,
           ((valid_loader valid_set bs).map (fun b =>
             (correct_total (b.map (fun p => model p.1))
               (b.map Prod.snd)).2)).sum) := by
  refine ⟨?_, ?_, workerValid_eq model lossFn _⟩
  · rw [valid_loader, loaderBatches]
    simp [chunks_join bs hbs]
  · intro m2 f2
    exact workerValid_total m2 f2 valid_set bs hbs

/-- C6, witness on the concrete ten-sample set with batch size 4. -/
theorem valid_phase_unsharded_full_set_witness :
    0 < 4
    ∧ ((valid_loader sampleSet 4).flatten = sampleSet
      ∧ (∀ (m2 : Nat → List ℚ) (f2 : List (List ℚ) → List Nat → ℚ),
          (workerValid m2 f2 (valid_loader sampleSet 4)).2.2
            = sampleSet.length)
      ∧ workerValid modelA lossZero (valid_loader sampleSet 4)
          = ((valid_loader sampleSet 4).map
              (fun b => lossZero (b.map (fun p => modelA p.1))
                (b.map Prod.snd)),
             ((valid_loader sampleSet 4).map (fun b =>
               (correct_total (b.map (fun p => modelA p.1))
                 (b.map Prod.snd)).1)).sum,
             ((valid_loader sampleSet 4).map (fun b =>
               (correct_total (b.map (fun p => modelA p.1))
                 (b.map Prod.snd)).2)).sum)) :=
  ⟨by decide,
   valid_phase_unsharded_full_set modelA lossZero sampleSet 4 (by decide)⟩

/-- C8: in each epoch the orchestrator emits, in order, the sampler
re-seed with the epoch index, a single learning-rate application worth
`initial_lr * lr_schedule(epoch)`, the `lr` report — and only then the
training steps: no further LR application occurs anywhere in the rest of
the epoch, and every training step lies in that rest. -/
theorem epoch_order_reseed_schedule_train
    (batch world_size epoch nTrain : Nat) :
    ∃ rest,
      epochEvents batch world_size epoch nTrain
        = Event.setEpoch epoch
          :: Event.applyLR
              (initial_lr batch world_size * lr_schedule world_size epoch)
          :: Event.record "lr" epoch :: rest
      ∧ (∀ ev ∈ rest, ev.isApplyLR = false)
      ∧ (∀ ev ∈ epochEvents batch world_size epoch nTrain,
          ev.isTrainStep = true → ev ∈ rest) := by
  refine ⟨(List.range nTrain).map Event.trainStep
    ++ [Event.record "time-per/epoch" (epoch + 1), Event.validPhase],
    rfl, ?_, ?_⟩
  · intro ev hev
    simp only [List.mem_append, List.mem_map, List.mem_range,
      List.mem_cons, List.not_mem_nil, or_false] at hev
    rcases hev with ⟨i, _, rfl⟩ | rfl | rfl <;> rfl
  · intro ev hev htr
    simp only [epochEvents, List.mem_cons] at hev
    rcases hev with rfl | rfl | rfl | hev
    · exact absurd htr (by simp [Event.isTrainStep])
    · exact absurd htr (by simp [Event.isTrainStep])
    · exact absurd htr (by simp [Event.isTrainStep])
    · exact hev

/-- C8, witness at a concrete epoch: `batch = 128`, `world_size = 2`,
`epoch = 3`, two training steps. -/
theorem epoch_order_reseed_schedule_train_witness :
    ∃ rest,
      epochEvents 128 2 3 2
        = Event.setEpoch 3
          :: Event.applyLR (initial_lr 128 2 * lr_schedule 2 3)
          :: Event.record "lr" 3 :: rest
      ∧ (∀ ev ∈ rest, ev.isApplyLR = false)
      ∧ (∀ ev ∈ epochEvents 128 2 3 2, ev.isTrainStep = true → ev ∈ rest) :=
  epoch_order_reseed_schedule_train 128 2 3 2

/-- C9: with `drop_last=True` every batch of the training loader has
exactly `batch_size` elements, while the `drop_last=False` validation
loader covers the set exactly, so a validation run counts every sample in
its accumulated `total`. -/
theorem loader_drop_last_policy {α β : Type} (shard : List α)
    (model : β → List ℚ) (lossFn : List (List ℚ) → List Nat → ℚ)
    (valid_set : List (β × Nat)) (bs : Nat) (hbs : 0 < bs) :
    (∀ b ∈ train_loader shard bs, b.length = bs)
    ∧ (valid_loader valid_set bs).flatten = valid_set
    ∧ (workerValid model lossFn (valid_loader valid_set bs)).2.2
        = valid_set.length := by
  refine ⟨?_, ?_, workerValid_total model lossFn valid_set bs hbs⟩
  · intro b hb
    rw [train_loader, loaderBatches] at hb
    simp only [if_true, ite_true, List.mem_filter, beq_iff_eq] at hb
    exact hb.2
  · rw [valid_loader, loaderBatches]
    simp [chunks_join bs hbs]

/-- C9, witness: an 11-element training shard at batch size 4 yields only
full batches, and the ten-sample validation set is fully counted. -/
theorem loader_drop_last_policy_witness :
    0 < 4
    ∧ ((∀ b ∈ train_loader (List.range 11) 4, b.length = 4)
      ∧ (valid_loader sampleSet 4).flatten = sampleSet
      ∧ (workerValid modelA lossZero (valid_loader sampleSet 4)).2.2
          = sampleSet.length) :=
  ⟨by decide,
   loader_drop_last_policy (List.range 11) modelA lossZero sampleSet 4
     (by decide)⟩

/-- C10: `correct_total` returns `correct ≤ total` with
`total = targets.length`; the accumulated validation counters satisfy the
same bound; and each ratio `correct / total` — the per-step training
accuracy and the per-epoch validation accuracy — lies in `[0, 1]`
whenever its `total` is positive. -/
theorem correct_total_bounds {α : Type} (outputs : List (List ℚ))
    (targets : List Nat) (model : α → List ℚ)
    (lossFn : List (List ℚ) → List Nat → ℚ)
    (batches : List (List (α × Nat))) :
    (correct_total outputs targets).1 ≤ (correct_total outputs targets).2
    ∧ (correct_total outputs targets).2 = targets.length
    ∧ (0 < (correct_total outputs targets).2 →
        (0 : ℚ) ≤ ((correct_total outputs targets).1 : ℚ)
            / ((correct_total outputs targets).2 : ℚ)
        ∧ ((correct_total outputs targets).1 : ℚ)
            / ((correct_total outputs targets).2 : ℚ) ≤ 1)
    ∧ (workerValid model lossFn batches).2.1
        ≤ (workerValid model lossFn batches).2.2
    ∧ (0 < (workerValid model lossFn batches).2.2 →
        (0 : ℚ) ≤ ((workerValid model lossFn batches).2.1 : ℚ)
            / ((workerValid model lossFn batches).2.2 : ℚ)
        ∧ ((workerValid model lossFn batches).2.1 : ℚ)
            / ((workerValid model lossFn batches).2.2 : ℚ) ≤ 1) := by
  have hacc : (workerValid model lossFn batches).2.1
      ≤ (workerValid model lossFn batches).2.2 := by
    rw [workerValid_eq]
    simp only
    apply List.sum_le_sum
    intro b _
    exact correct_total_le _ _
  refine ⟨correct_total_le outputs targets, by simp [correct_total],
    fun h => ratio_bounds _ _ (correct_total_le outputs targets) h,
    hacc, fun h => ratio_bounds _ _ hacc h⟩

/-- C10, witness: one batch of two rows, one of them correct. -/
theorem correct_total_bounds_witness :
    (correct_total [[1, 0], [0, 1]] [0, 0]).1
        ≤ (correct_total [[1, 0], [0, 1]] [0, 0]).2
    ∧ (correct_total [[1, 0], [0, 1]] [0, 0]).2 = 2
    ∧ (0 : ℚ) ≤ ((correct_total [[1, 0], [0, 1]] [0, 0]).1 : ℚ)
        / ((correct_total [[1, 0], [0, 1]] [0, 0]).2 : ℚ)
    ∧ ((correct_total [[1, 0], [0, 1]] [0, 0]).1 : ℚ)
        / ((correct_total [[1, 0], [0, 1]] [0, 0]).2 : ℚ) ≤ 1
    ∧ (0 : ℚ) ≤ ((workerValid modelA lossZero
          (valid_loader sampleSet 10)).2.1 : ℚ)
        / ((workerValid modelA lossZero (valid_loader sampleSet 10)).2.2 : ℚ)
    ∧ ((workerValid modelA lossZero (valid_loader sampleSet 10)).2.1 : ℚ)
        / ((workerValid modelA lossZero (valid_loader sampleSet 10)).2.2 : ℚ)
        ≤ 1 := by
  have h1 := correct_total_bounds [[1, 0], [0, 1]] [0, 0] modelA lossZero
    (valid_loader sampleSet 10)
  have h2 := h1.2.2.1 (by decide)
  have h3 := h1.2.2.2.2 (by decide)
  exact ⟨h1.1, by decide, h2.1, h2.2, h3.1, h3.2⟩

end ResnetTutorial
